import Mathlib

/-!
Formal model of the CITARION IAF backtesting service.

The development shallowly embeds the event-driven backtest engine
(`iaf-service/backtesting/engine.py`), its data types
(`iaf-service/backtesting/types.py`) and the position-sizing rules
(`iaf-service/strategies/risk.py`):

* Python floats are modelled as rationals (`ℚ`); every quantity the engine
  manipulates is produced by field operations and comparisons, which floats
  and rationals share on the concrete inputs used here.
* `datetime` values are modelled as integers (timestamps).
* A pandas frame is modelled as a list of candles; the insertion-ordered
  position dictionary `Dict[str, BacktestPosition]` is modelled as a list
  in insertion order, keyed by the numeric suffix of the generated
  `pos_{n}` id.
* Python truthiness of `Optional[float]` values (`None` and `0.0` are
  falsy) is modelled explicitly by `OptQ.truthy`.
-/

/-- Python truthiness of an `Optional[float]`: `None` and `0.0` are falsy. -/
def OptQ.truthy : Option ℚ → Bool
  | none => false
  | some x => decide (x ≠ 0)

/-- A nonnegativity predicate on optional values (used for well-formedness
hypotheses on signal metadata and stored stop/target prices). -/
def OptNonneg : Option ℚ → Prop
  | none => True
  | some x => 0 ≤ x

/-- Python float results that may be the IEEE infinity produced by
`float('inf')`; all finite values are rationals. -/
inductive PyFloat where
  | inf : PyFloat
  | val : ℚ → PyFloat
deriving DecidableEq, Repr

/-- `strategies/risk.py` `PositionSize`: declarative position-sizing
configuration. -/
structure PositionSize where
  symbol : String
  percentage_of_portfolio : ℚ
  fixed_amount : Option ℚ
  max_amount : Option ℚ
  min_amount : Option ℚ
  risk_per_trade : Option ℚ
deriving DecidableEq, Repr

/-- `PositionSize.calculate_size` (risk.py lines 61-103): candidate size from
fixed amount or portfolio percentage, then the risk-based cap, then the
min/max notional constraints, in that order. -/
def PositionSize.calculate_size (ps : PositionSize) (portfolio_value : ℚ)
    (current_price : ℚ) (stop_loss_price : Option ℚ) : ℚ :=
  let size :=
    match ps.fixed_amount with
    | some fa => fa / current_price
    | none => portfolio_value * (ps.percentage_of_portfolio / 100) / current_price
  let size :=
    match stop_loss_price, ps.risk_per_trade with
    | some slp, some rpt =>
        let risk_amount := portfolio_value * (rpt / 100)
        let price_risk := |current_price - slp|
        if 0 < price_risk then min size (risk_amount / price_risk) else size
    | _, _ => size
  let size :=
    match ps.min_amount with
    | some ma => max size (ma / current_price)
    | none => size
  match ps.max_amount with
  | some ma => min size (ma / current_price)
  | none => size

/-- `BacktestMetrics.calculate_profit_factor` (types.py lines 214-218):
`inf` when there is no gross loss but positive gross profit, `0` when
neither, otherwise `|gross_profit / gross_loss|`. -/
def BacktestMetrics.calculate_profit_factor (gross_profit gross_loss : ℚ) : PyFloat :=
  if gross_loss = 0 then (if 0 < gross_profit then PyFloat.inf else PyFloat.val 0)
  else PyFloat.val |gross_profit / gross_loss|

-- Sanity check examples for the sizing function.
example :
    (PositionSize.mk "X" 10 none none none none).calculate_size 10000 100 none = 10 := by
  unfold PositionSize.calculate_size
  norm_num

/-! ## Backtesting data types (`backtesting/types.py`) -/

/-- `TradeType` (types.py lines 11-17). -/
inductive TradeType where
  | entry
  | exit
  | stop_loss
  | take_profit
  | liquidation
deriving DecidableEq, Repr

/-- `PositionSide` (types.py lines 20-23). -/
inductive PositionSide where
  | long
  | short
deriving DecidableEq, Repr

/-- `BacktestPosition` (types.py lines 26-47).  The Python `__post_init__`
sets `highest_price` and `lowest_price` to `entry_price`; the engine's only
constructor site does exactly that, so the model stores them explicitly.
The numeric part of the generated id string `pos_{n}` is kept as the id. -/
structure BacktestPosition where
  id : ℕ
  symbol : String
  side : PositionSide
  entry_price : ℚ
  size : ℚ
  entry_time : ℤ
  stop_loss : Option ℚ
  take_profit : Option ℚ
  trailing_stop : Option ℚ
  highest_price : ℚ
  lowest_price : ℚ
deriving DecidableEq, Repr

/-- `BacktestPosition.update_price_tracking` (types.py lines 49-52). -/
def BacktestPosition.update_price_tracking (p : BacktestPosition) (high low : ℚ) :
    BacktestPosition :=
  { p with
    highest_price := max p.highest_price high
    lowest_price := min p.lowest_price low }

/-- `BacktestPosition.calculate_pnl` (types.py lines 54-59). -/
def BacktestPosition.calculate_pnl (p : BacktestPosition) (current_price : ℚ) : ℚ :=
  if p.side = PositionSide.long then (current_price - p.entry_price) * p.size
  else (p.entry_price - current_price) * p.size

/-- `BacktestPosition.calculate_pnl_percentage` (types.py lines 61-66). -/
def BacktestPosition.calculate_pnl_percentage (p : BacktestPosition)
    (current_price : ℚ) : ℚ :=
  if p.side = PositionSide.long then
    ((current_price - p.entry_price) / p.entry_price) * 100
  else
    ((p.entry_price - current_price) / p.entry_price) * 100

/-- `BacktestTrade` (types.py lines 85-114).  `holding_time_seconds` is set by
`__post_init__` to the exit/entry time difference. -/
structure BacktestTrade where
  id : ℕ
  position_id : ℕ
  symbol : String
  side : PositionSide
  entry_price : ℚ
  exit_price : ℚ
  size : ℚ
  entry_time : ℤ
  exit_time : ℤ
  pnl : ℚ
  pnl_percentage : ℚ
  trade_type : TradeType
  commission : ℚ
  holding_time_seconds : ℤ
deriving DecidableEq, Repr

/-- `BacktestTrade.is_winner` (types.py lines 112-114). -/
def BacktestTrade.is_winner (t : BacktestTrade) : Bool :=
  decide (0 < t.pnl)

/-- `EquityPoint` (types.py lines 136-148). -/
structure EquityPoint where
  timestamp : ℤ
  equity : ℚ
  cash : ℚ
  position_value : ℚ
  drawdown : ℚ
  drawdown_percentage : ℚ
deriving DecidableEq, Repr

/-- `BacktestConfig` (types.py lines 256-282), restricted to the fields the
event-driven engine reads. -/
structure BacktestConfig where
  start_date : ℤ
  end_date : ℤ
  initial_capital : ℚ
  commission : ℚ
  slippage : ℚ
  max_positions : ℤ
  trailing_stop : Bool
  trailing_stop_percent : ℚ
deriving DecidableEq, Repr

/-- `BacktestConfig.validate` (types.py lines 284-300). -/
def BacktestConfig.validate (c : BacktestConfig) : List String :=
  (if c.end_date ≤ c.start_date then ["start_date must be before end_date"] else []) ++
  (if c.initial_capital ≤ 0 then ["initial_capital must be positive"] else []) ++
  (if c.commission < 0 then ["commission cannot be negative"] else []) ++
  (if c.max_positions < 1 then ["max_positions must be at least 1"] else [])

/-! ## Signals (`strategies/types.py`) -/

/-- `SignalType` (strategies/types.py lines 34-41). -/
inductive SignalType where
  | buy
  | sell
  | hold
  | close_long
  | close_short
  | no_signal
deriving DecidableEq, Repr

/-- The three metadata keys the engine reads from `signal.metadata`. -/
structure SignalMetadata where
  position_size_pct : Option ℚ
  stop_loss : Option ℚ
  take_profit : Option ℚ
deriving DecidableEq, Repr

/-- `Signal` (strategies/types.py lines 213-232), restricted to the fields
the engine reads. -/
structure Signal where
  type : SignalType
  symbol : String
  metadata : SignalMetadata
deriving DecidableEq, Repr

/-- `Signal.is_actionable` (strategies/types.py lines 234-236). -/
def Signal.is_actionable (s : Signal) : Bool :=
  decide (s.type ≠ SignalType.hold ∧ s.type ≠ SignalType.no_signal)

/-- One row of the OHLCV frame, with its timestamp. -/
structure Candle where
  timestamp : ℤ
  high : ℚ
  low : ℚ
  close : ℚ
deriving DecidableEq, Repr

/-! ## Engine state and operations (`backtesting/engine.py`) -/

/-- The mutable state of `BacktestEngine` (engine.py lines 70-85). -/
structure EngineState where
  config : BacktestConfig
  cash : ℚ
  initial_capital : ℚ
  positions : List BacktestPosition
  trades : List BacktestTrade
  equity_curve : List EquityPoint
  peak_equity : ℚ
  trade_counter : ℕ
  position_counter : ℕ
deriving DecidableEq, Repr

/-- `BacktestEngine.__init__` (engine.py lines 70-85). -/
def BacktestEngine.init (config : BacktestConfig) : EngineState :=
  { config := config
    cash := config.initial_capital
    initial_capital := config.initial_capital
    positions := []
    trades := []
    equity_curve := []
    peak_equity := config.initial_capital
    trade_counter := 0
    position_counter := 0 }

/-- `BacktestEngine.reset` (engine.py lines 87-95). -/
def EngineState.reset (s : EngineState) : EngineState :=
  { s with
    cash := s.initial_capital
    positions := []
    trades := []
    equity_curve := []
    peak_equity := s.initial_capital
    trade_counter := 0
    position_counter := 0 }

/-- The notional of a prospective BUY (engine.py lines 230-233): 10% of cash
by default, overridden by a truthy `position_size_pct` metadata entry. -/
def EngineState.open_position_value (s : EngineState) (sig : Signal) : ℚ :=
  match sig.metadata.position_size_pct with
  | some p => if p ≠ 0 then s.cash * (p / 100) else s.cash * (1 / 10)
  | none => s.cash * (1 / 10)

/-- The entry commission of a prospective BUY (engine.py line 240). -/
def EngineState.open_commission (s : EngineState) (sig : Signal) : ℚ :=
  s.open_position_value sig * s.config.commission

/-- `BacktestEngine._open_position` (engine.py lines 223-265). -/
def EngineState.open_position (s : EngineState) (sig : Signal) (candle : Candle)
    (ts : ℤ) : EngineState :=
  let position_value := s.open_position_value sig
  let entry_price := candle.close * (1 + s.config.slippage)
  let size := position_value / entry_price
  let commission := s.open_commission sig
  if s.cash < position_value + commission then s
  else
    { s with
      cash := s.cash - (position_value + commission)
      position_counter := s.position_counter + 1
      positions := s.positions ++
        [{ id := s.position_counter + 1
           symbol := sig.symbol
           side := PositionSide.long
           entry_price := entry_price
           size := size
           entry_time := ts
           stop_loss := sig.metadata.stop_loss
           take_profit := sig.metadata.take_profit
           trailing_stop := none
           highest_price := entry_price
           lowest_price := entry_price }] }

/-- `BacktestEngine._close_position_at_price` (engine.py lines 352-385).
`BacktestEngine._close_position` (lines 267-322) inlines this same body
after locating the position by symbol; the model shares the definition. -/
def EngineState.close_position_at_price (s : EngineState) (position : BacktestPosition)
    (price : ℚ) (ts : ℤ) (trade_type : TradeType) : EngineState :=
  let position_value := price * position.size
  let commission := position_value * s.config.commission
  let pnl := position.calculate_pnl price - commission
  { s with
    cash := s.cash + (position_value - commission)
    trade_counter := s.trade_counter + 1
    trades := s.trades ++
      [{ id := s.trade_counter + 1
         position_id := position.id
         symbol := position.symbol
         side := position.side
         entry_price := position.entry_price
         exit_price := price
         size := position.size
         entry_time := position.entry_time
         exit_time := ts
         pnl := pnl
         pnl_percentage := position.calculate_pnl_percentage price
         trade_type := trade_type
         commission := commission
         holding_time_seconds := ts - position.entry_time }]
    positions := s.positions.eraseP (fun p => p.id == position.id) }

/-- `BacktestEngine._close_position` (engine.py lines 267-322): close the
first open position whose symbol matches the signal, at the candle close
adjusted by slippage; a silent no-op when no position matches. -/
def EngineState.close_position (s : EngineState) (sig : Signal) (candle : Candle)
    (ts : ℤ) (trade_type : TradeType) : EngineState :=
  match s.positions.find? (fun p => p.symbol == sig.symbol) with
  | none => s
  | some position =>
      s.close_position_at_price position (candle.close * (1 - s.config.slippage))
        ts trade_type

/-- The stop-loss / take-profit / trailing-stop trigger test of
`BacktestEngine._check_exit_orders` (engine.py lines 333-344): an `elif`
chain, each guard using Python truthiness on the stored optional price.
Returns the `(position_id, trade_type, price)` entry the Python code
appends to `positions_to_close`. -/
def BacktestPosition.exit_trigger (p : BacktestPosition) (high low : ℚ) :
    Option (ℕ × TradeType × ℚ) :=
  if OptQ.truthy p.stop_loss && decide (low ≤ p.stop_loss.getD 0) then
    some (p.id, TradeType.stop_loss, p.stop_loss.getD 0)
  else if OptQ.truthy p.take_profit && decide (p.take_profit.getD 0 ≤ high) then
    some (p.id, TradeType.take_profit, p.take_profit.getD 0)
  else if OptQ.truthy p.trailing_stop && decide (low ≤ p.trailing_stop.getD 0) then
    some (p.id, TradeType.stop_loss, p.trailing_stop.getD 0)
  else none

/-- The closing loop of `BacktestEngine._check_exit_orders` (engine.py lines
346-350): close each collected entry, skipping ids no longer present. -/
def EngineState.close_entries (s : EngineState) (l : List (ℕ × TradeType × ℚ))
    (ts : ℤ) : EngineState :=
  match l with
  | [] => s
  | e :: rest =>
      let s :=
        match s.positions.find? (fun p => p.id == e.1) with
        | some position => s.close_position_at_price position e.2.2 ts e.2.1
        | none => s
      s.close_entries rest ts

/-- `BacktestEngine._check_exit_orders` (engine.py lines 324-350). -/
def EngineState.check_exit_orders (s : EngineState) (high low : ℚ) (ts : ℤ) :
    EngineState :=
  s.close_entries (s.positions.filterMap (fun p => p.exit_trigger high low)) ts

/-- The per-position body of `BacktestEngine._update_position_prices`
(engine.py lines 389-397): widen the price tracking, then ratchet the
trailing stop of LONG positions when the global flag is set. -/
def updateOnePosition (config : BacktestConfig) (high low : ℚ)
    (p : BacktestPosition) : BacktestPosition :=
  let p := p.update_price_tracking high low
  if config.trailing_stop then
    if p.side = PositionSide.long then
      let new_trailing := p.highest_price * (1 - config.trailing_stop_percent / 100)
      match p.trailing_stop with
      | none => { p with trailing_stop := some new_trailing }
      | some t =>
          if t < new_trailing then { p with trailing_stop := some new_trailing } else p
    else p
  else p

/-- `BacktestEngine._update_position_prices` (engine.py lines 387-397). -/
def EngineState.update_position_prices (s : EngineState) (high low : ℚ) :
    EngineState :=
  { s with positions := s.positions.map (updateOnePosition s.config high low) }

/-- `BacktestEngine._process_signal` (engine.py lines 200-221). -/
def EngineState.process_signal (s : EngineState) (sig : Signal) (candle : Candle)
    (ts : ℤ) : EngineState :=
  if !sig.is_actionable then s
  else if sig.type = SignalType.buy ∧ s.config.max_positions ≤ (s.positions.length : ℤ)
  then s
  else
    match sig.type with
    | SignalType.buy => s.open_position sig candle ts
    | SignalType.sell => s.close_position sig candle ts TradeType.exit
    | SignalType.close_long => s.close_position sig candle ts TradeType.exit
    | SignalType.close_short => s.close_position sig candle ts TradeType.exit
    | _ => s

/-- `BacktestEngine._record_equity` (engine.py lines 399-422). -/
def EngineState.record_equity (s : EngineState) (ts : ℤ) (close : ℚ) : EngineState :=
  let position_value := (s.positions.map (fun pos => pos.size * close)).sum
  let equity := s.cash + position_value
  let peak_equity := max s.peak_equity equity
  let drawdown := peak_equity - equity
  { s with
    peak_equity := peak_equity
    equity_curve := s.equity_curve ++
      [{ timestamp := ts
         equity := equity
         cash := s.cash
         position_value := position_value
         drawdown := drawdown
         drawdown_percentage :=
           if 0 < peak_equity then (drawdown / peak_equity) * 100 else 0 }] }

/-- The body of one iteration of the `_run_event_driven` candle loop
(engine.py lines 165-198): exit-order check, price-tracking update, signal
processing in order, then equity recording.  `signals` is what
`strategy.generate_signals` returned for the data prefix ending at this
candle. -/
def EngineState.step_candle (s : EngineState) (signals : List Signal)
    (candle : Candle) : EngineState :=
  let s := s.check_exit_orders candle.high candle.low candle.timestamp
  let s := s.update_position_prices candle.high candle.low
  let s := signals.foldl (fun st sig => st.process_signal sig candle candle.timestamp) s
  s.record_equity candle.timestamp candle.close

/-- The candle loop of `BacktestEngine._run_event_driven` (engine.py lines
152-198): `past` is the already-consumed data prefix (each step hands the
strategy the prefix up to and including the current candle), `rest` the
candles still to process. -/
def runFrom (gen : List Candle → List Signal) (past rest : List Candle)
    (s : EngineState) : EngineState :=
  match rest with
  | [] => s
  | c :: rest =>
      runFrom gen (past ++ [c]) rest (s.step_candle (gen (past ++ [c])) c)

/-- `BacktestEngine._run_event_driven` (engine.py lines 152-198): the loop
starts after the warm-up period `max(50, len(data.columns))`. -/
def EngineState.run_event_driven (s : EngineState) (gen : List Candle → List Signal)
    (data : List Candle) (num_cols : ℕ) : EngineState :=
  runFrom gen (data.take (max 50 num_cols)) (data.drop (max 50 num_cols)) s

/-- `BacktestEngine._filter_data_by_date` (engine.py lines 139-150), for data
carrying timestamps: keep the candles inside the configured window. -/
def BacktestConfig.filter_data_by_date (config : BacktestConfig)
    (data : List Candle) : List Candle :=
  data.filter (fun c =>
    decide (config.start_date ≤ c.timestamp ∧ c.timestamp ≤ config.end_date))

/-- A strategy data source (`strategies/types.py` `DataSource`): its loaded
frame, `none` when no data was loaded. -/
structure DataSource where
  data : Option (List Candle)

/-- The slice of `TradingStrategy` the engine consumes: registered data
sources and the `generate_signals` callback (modelled as a function of the
data prefix handed to it). -/
structure TradingStrategy where
  data_sources : List DataSource
  generate_signals : List Candle → List Signal

/-- The number of columns of an OHLCV frame with a timestamp column, used in
the warm-up bound `max(50, len(data.columns))`. -/
def numCandleColumns : ℕ := 6

/-- The slice of `BacktestResult` (engine.py lines 32-60) that the modelled
claims constrain: the trade list and the equity curve. -/
structure BacktestResult where
  trades : List BacktestTrade
  equity_curve : List EquityPoint
deriving DecidableEq, Repr

/-- `BacktestEngine.run` (engine.py lines 97-137): reset, fail when no data
source is registered or the primary source has no data, filter by date,
replay, and package the result. -/
def BacktestEngine.run (config : BacktestConfig) (strategy : TradingStrategy) :
    Except String BacktestResult :=
  let s := (BacktestEngine.init config).reset
  match strategy.data_sources with
  | [] => Except.error "No data sources available for backtesting"
  | primary :: _ =>
      match primary.data with
      | none => Except.error "No data loaded in data source"
      | some data =>
          if data.length = 0 then Except.error "No data loaded in data source"
          else
            let filtered := config.filter_data_by_date data
            let final := s.run_event_driven strategy.generate_signals filtered
              numCandleColumns
            Except.ok { trades := final.trades, equity_curve := final.equity_curve }

/-- The gross profit of a trade list (engine.py lines 438, 451): the sum of
the winning trades' pnl. -/
def grossProfit (trades : List BacktestTrade) : ℚ :=
  ((trades.filter (fun t => t.is_winner)).map (fun t => t.pnl)).sum

/-- The gross loss of a trade list (engine.py lines 439, 452): the absolute
value of the non-winning trades' summed pnl. -/
def grossLoss (trades : List BacktestTrade) : ℚ :=
  |((trades.filter (fun t => !t.is_winner)).map (fun t => t.pnl)).sum|

/-! ## Claim C7: profit-factor edge cases -/

/-- Gross profit is a sum of strictly positive pnls, hence nonnegative. -/
theorem grossProfit_nonneg (trades : List BacktestTrade) : 0 ≤ grossProfit trades := by
  apply List.sum_nonneg
  intro x hx
  rcases List.mem_map.mp hx with ⟨t, ht, rfl⟩
  have := (List.mem_filter.mp ht).2
  have h0 : 0 < t.pnl := by simpa [BacktestTrade.is_winner] using this
  exact le_of_lt h0

/-- C7: with `gross_profit` and `gross_loss` computed from the trade list as
in `_calculate_metrics` (engine.py lines 450-453), the profit factor is
`inf` when the losing trades have zero gross loss and the gross profit is
positive, `0` when the gross loss and gross profit are both zero (gross
profit is never negative), and `|gross_profit / gross_loss|` otherwise. -/
theorem profit_factor_edge_cases (trades : List BacktestTrade) :
    0 ≤ grossProfit trades ∧
    (grossLoss trades = 0 → 0 < grossProfit trades →
      BacktestMetrics.calculate_profit_factor (grossProfit trades) (grossLoss trades) =
        PyFloat.inf) ∧
    (grossLoss trades = 0 → grossProfit trades = 0 →
      BacktestMetrics.calculate_profit_factor (grossProfit trades) (grossLoss trades) =
        PyFloat.val 0) ∧
    (grossLoss trades ≠ 0 →
      BacktestMetrics.calculate_profit_factor (grossProfit trades) (grossLoss trades) =
        PyFloat.val |grossProfit trades / grossLoss trades|) := by
  refine ⟨grossProfit_nonneg trades, ?_, ?_, ?_⟩
  · intro hl hg
    unfold BacktestMetrics.calculate_profit_factor
    rw [if_pos hl, if_pos hg]
  · intro hl hg
    unfold BacktestMetrics.calculate_profit_factor
    rw [if_pos hl, if_neg (by rw [hg]; exact lt_irrefl 0)]
  · intro hl
    unfold BacktestMetrics.calculate_profit_factor
    rw [if_neg hl]

/-- Witness for C7: a single winning trade gives zero gross loss, positive
gross profit, and an infinite profit factor. -/
theorem profit_factor_edge_cases_witness :
    BacktestMetrics.calculate_profit_factor
      (grossProfit [{ id := 1, position_id := 1, symbol := "BTC",
                      side := PositionSide.long, entry_price := 100, exit_price := 110,
                      size := 1, entry_time := 0, exit_time := 1, pnl := 10,
                      pnl_percentage := 10, trade_type := TradeType.exit,
                      commission := 0, holding_time_seconds := 1 }])
      (grossLoss [{ id := 1, position_id := 1, symbol := "BTC",
                    side := PositionSide.long, entry_price := 100, exit_price := 110,
                    size := 1, entry_time := 0, exit_time := 1, pnl := 10,
                    pnl_percentage := 10, trade_type := TradeType.exit,
                    commission := 0, holding_time_seconds := 1 }]) = PyFloat.inf := by
  apply (profit_factor_edge_cases _).2.1
  · norm_num [grossLoss, BacktestTrade.is_winner]
  · norm_num [grossProfit, BacktestTrade.is_winner]

/-! ## Claim C9: risk-based sizing cap -/

/-- C9 (amended): when no minimum notional is configured, the computed size
never exceeds the risk cap `(portfolio_value × risk_pct/100) / |price −
stop_loss_price|`; the `max_amount` clamp can only shrink it further.  (The
unamended claim fails when `min_amount` is set: see the counterexample.) -/
theorem risk_cap_bounds_size (ps : PositionSize) (portfolio_value current_price : ℚ)
    (slp rpt : ℚ) (hmin : ps.min_amount = none) (hr : ps.risk_per_trade = some rpt)
    (hne : current_price ≠ slp) :
    ps.calculate_size portfolio_value current_price (some slp) ≤
      portfolio_value * (rpt / 100) / |current_price - slp| := by
  have hpr : 0 < |current_price - slp| := abs_pos.mpr (sub_ne_zero.mpr hne)
  unfold PositionSize.calculate_size
  rw [hmin, hr]
  dsimp only
  rw [if_pos hpr]
  cases hmax : ps.max_amount with
  | none => exact min_le_right _ _
  | some ma => exact le_trans (min_le_left _ _) (min_le_right _ _)

/-- Witness for C9: a concrete sizing call with no minimum notional stays
below the risk cap. -/
theorem risk_cap_bounds_size_witness :
    (PositionSize.mk "X" 10 none none none (some 1)).calculate_size
      10000 100 (some 90) ≤ 10000 * ((1 : ℚ) / 100) / |(100 : ℚ) - 90| := by
  apply risk_cap_bounds_size
  · rfl
  · rfl
  · norm_num

/-- Counterexample for C9: with `min_amount = 5000` the returned size is 50,
which exceeds the risk cap `10000 × 1/100 / |100 − 90| = 10`. -/
theorem min_amount_exceeds_risk_cap_cex :
    (PositionSize.mk "X" 10 none none (some 5000) (some 1)).calculate_size
      10000 100 (some 90) = 50 ∧
    ¬ ((PositionSize.mk "X" 10 none none (some 5000) (some 1)).calculate_size
        10000 100 (some 90) ≤ 10000 * ((1 : ℚ) / 100) / |(100 : ℚ) - 90|) := by
  constructor
  · unfold PositionSize.calculate_size
    norm_num [min_def, max_def]
  · unfold PositionSize.calculate_size
    norm_num [min_def, max_def]

/-! ## Claim C10: closing signals with no matching position are no-ops -/

/-- C10: a SELL / CLOSE_LONG / CLOSE_SHORT signal whose symbol matches no
open position leaves the engine state (cash, positions, trades, everything)
unchanged; no trade is recorded and no error is raised (`_close_position`
returns silently). -/
theorem close_signal_no_position_noop (s : EngineState) (sig : Signal)
    (candle : Candle) (ts : ℤ)
    (hty : sig.type = SignalType.sell ∨ sig.type = SignalType.close_long ∨
      sig.type = SignalType.close_short)
    (hsym : ∀ p ∈ s.positions, p.symbol ≠ sig.symbol) :
    s.process_signal sig candle ts = s := by
  have hfind : s.positions.find? (fun p => p.symbol == sig.symbol) = none :=
    List.find?_eq_none.mpr (fun p hp => by simpa using hsym p hp)
  have hclose : ∀ tt, s.close_position sig candle ts tt = s := by
    intro tt
    unfold EngineState.close_position
    rw [hfind]
  unfold EngineState.process_signal
  rcases hty with h | h | h <;>
    simp [Signal.is_actionable, h, hclose]

/-- Witness for C10: a SELL for a symbol with no open position is a no-op on
a concrete state. -/
theorem close_signal_no_position_noop_witness :
    (BacktestEngine.init (BacktestConfig.mk 0 100 10000 0 0 5 false 2)).process_signal
      (Signal.mk SignalType.sell "BTC" (SignalMetadata.mk none none none))
      (Candle.mk 0 100 100 100) 0 =
    BacktestEngine.init (BacktestConfig.mk 0 100 10000 0 0 5 false 2) := by
  apply close_signal_no_position_noop
  · exact Or.inl rfl
  · intro p hp
    simp [BacktestEngine.init] at hp

/-! ## Claim C8: trailing-stop monotonicity -/

/-- The per-position update ratchets a stored LONG trailing stop to the
maximum of its old value and `highest_price × (1 − trailing_stop_percent /
100)` recomputed from the widened highest price. -/
theorem updateOnePosition_trailing (config : BacktestConfig) (high low : ℚ)
    (p : BacktestPosition) (t : ℚ) (hcfg : config.trailing_stop = true)
    (hside : p.side = PositionSide.long) (ht : p.trailing_stop = some t) :
    (updateOnePosition config high low p).trailing_stop =
      some (max t (max p.highest_price high * (1 - config.trailing_stop_percent / 100))) := by
  unfold updateOnePosition BacktestPosition.update_price_tracking
  rw [hcfg]
  simp only [if_true, hside, ht]
  rcases lt_or_le t (max p.highest_price high * (1 - config.trailing_stop_percent / 100))
    with hlt | hle
  · rw [if_pos hlt, max_eq_right (le_of_lt hlt)]
  · rw [if_neg (not_lt.mpr hle), max_eq_left hle]

/-- C8: in `_update_position_prices` with the global trailing-stop flag
enabled, a LONG position's stored trailing stop is only ever raised: the
position at index `i` afterwards carries `max t new_trailing` where `t` was
the stored value, so the stored value never decreases from candle to candle
(the position map is otherwise only written by this update). -/
theorem trailing_stop_ratchet (s : EngineState) (high low : ℚ) (i : ℕ)
    (p : BacktestPosition) (t : ℚ) (hp : s.positions[i]? = some p)
    (hcfg : s.config.trailing_stop = true) (hside : p.side = PositionSide.long)
    (ht : p.trailing_stop = some t) :
    (s.update_position_prices high low).positions[i]? =
      some (updateOnePosition s.config high low p) ∧
    (updateOnePosition s.config high low p).trailing_stop =
      some (max t (max p.highest_price high * (1 - s.config.trailing_stop_percent / 100))) ∧
    t ≤ max t (max p.highest_price high * (1 - s.config.trailing_stop_percent / 100)) := by
  refine ⟨?_, updateOnePosition_trailing s.config high low p t hcfg hside ht,
    le_max_left _ _⟩
  unfold EngineState.update_position_prices
  simp [List.getElem?_map, hp]

/-- Witness for C8: a concrete LONG position with trailing stop 95 and a new
high of 200 under a 2% trailing config ratchets up to 196. -/
theorem trailing_stop_ratchet_witness :
    (EngineState.mk (BacktestConfig.mk 0 100 10000 0 0 5 true 2) 9000 10000
        [{ id := 1, symbol := "BTC", side := PositionSide.long, entry_price := 100,
           size := 10, entry_time := 0, stop_loss := none, take_profit := none,
           trailing_stop := some 95, highest_price := 100, lowest_price := 100 }]
        [] [] 10000 0 1).update_position_prices 200 150 |>.positions[0]? =
      some (updateOnePosition (BacktestConfig.mk 0 100 10000 0 0 5 true 2) 200 150
        { id := 1, symbol := "BTC", side := PositionSide.long, entry_price := 100,
          size := 10, entry_time := 0, stop_loss := none, take_profit := none,
          trailing_stop := some 95, highest_price := 100, lowest_price := 100 }) ∧
    (updateOnePosition (BacktestConfig.mk 0 100 10000 0 0 5 true 2) 200 150
        { id := 1, symbol := "BTC", side := PositionSide.long, entry_price := 100,
          size := 10, entry_time := 0, stop_loss := none, take_profit := none,
          trailing_stop := some 95, highest_price := 100, lowest_price := 100 }).trailing_stop =
      some (max 95 (max 100 200 * (1 - (2 : ℚ) / 100))) ∧
    (95 : ℚ) ≤ max 95 (max 100 200 * (1 - (2 : ℚ) / 100)) := by
  exact trailing_stop_ratchet _ 200 150 0 _ 95 rfl rfl rfl rfl

/-! ## Claim C5: missing-data errors in `run` -/

/-- The replay loop does nothing on an empty candle list. -/
theorem run_event_driven_nil (s : EngineState) (gen : List Candle → List Signal)
    (num_cols : ℕ) : s.run_event_driven gen [] num_cols = s := by
  unfold EngineState.run_event_driven
  rw [List.take_nil, List.drop_nil]
  rfl

/-- C5 (amended): `run` raises the missing-data errors exactly for a missing
data source and for an unloaded or empty primary series, both checked
BEFORE date filtering; when the loaded series is nonempty but the
date-filtered series is empty, `run` does not raise — it returns a normal
result with no trades and no equity points. -/
theorem run_missing_data_errors (cfg : BacktestConfig) (strat : TradingStrategy) :
    (strat.data_sources = [] →
      BacktestEngine.run cfg strat =
        Except.error "No data sources available for backtesting") ∧
    (∀ ds rest, strat.data_sources = ds :: rest → ds.data = none →
      BacktestEngine.run cfg strat = Except.error "No data loaded in data source") ∧
    (∀ ds rest, strat.data_sources = ds :: rest → ds.data = some [] →
      BacktestEngine.run cfg strat = Except.error "No data loaded in data source") ∧
    (∀ ds rest data, strat.data_sources = ds :: rest → ds.data = some data →
      data ≠ [] → cfg.filter_data_by_date data = [] →
      BacktestEngine.run cfg strat = Except.ok (BacktestResult.mk [] [])) := by
  refine ⟨?_, ?_, ?_, ?_⟩
  · intro h
    unfold BacktestEngine.run
    rw [h]
  · intro ds rest h hd
    unfold BacktestEngine.run
    rw [h]
    dsimp only
    rw [hd]
  · intro ds rest h hd
    unfold BacktestEngine.run
    rw [h]
    dsimp only
    rw [hd]
    rfl
  · intro ds rest data h hd hne hfil
    unfold BacktestEngine.run
    rw [h]
    dsimp only
    rw [hd]
    dsimp only
    rw [if_neg (by simpa using hne), hfil, run_event_driven_nil]
    rfl

/-- Witness for C5: a strategy with no data sources makes `run` fail with
the missing-data-source error. -/
theorem run_missing_data_errors_witness :
    BacktestEngine.run (BacktestConfig.mk 100 200 10000 0 0 5 false 2)
      (TradingStrategy.mk [] (fun _ => [])) =
      Except.error "No data sources available for backtesting" :=
  (run_missing_data_errors _ _).1 rfl

/-- Counterexample for C5: a nonempty loaded series whose date-filtered
restriction is empty does NOT raise — `run` returns a normal, empty
result, so the claim's "raises whenever the filtered series is empty" is
false on the code. -/
theorem empty_filtered_ok_cex :
    (BacktestConfig.mk 100 200 10000 0 0 5 false 2).filter_data_by_date
      [Candle.mk 0 1 1 1] = [] ∧
    [Candle.mk 0 1 1 1] ≠ ([] : List Candle) ∧
    BacktestEngine.run (BacktestConfig.mk 100 200 10000 0 0 5 false 2)
      (TradingStrategy.mk [DataSource.mk (some [Candle.mk 0 1 1 1])] (fun _ => [])) =
      Except.ok (BacktestResult.mk [] []) := by
  refine ⟨?_, by simp, ?_⟩
  · unfold BacktestConfig.filter_data_by_date
    simp
  · unfold BacktestEngine.run
    dsimp only
    rw [if_neg (by simp)]
    have hfil : (BacktestConfig.mk 100 200 10000 0 0 5 false 2).filter_data_by_date
        [Candle.mk 0 1 1 1] = [] := by
      unfold BacktestConfig.filter_data_by_date
      simp
    rw [hfil, run_event_driven_nil]
    rfl

/-! ## Claim C6: end-to-end scenario A -/

/-- Scenario A configuration: initial_capital 10000, commission 0,
slippage 0, max_positions 1 (trailing stop off). -/
def cfgA : BacktestConfig := BacktestConfig.mk 0 100 10000 0 0 1 false 2

/-- A flat warm-up candle at price 100. -/
def warmCandle : Candle := Candle.mk 0 100 100 100

/-- Scenario A data: 50 warm-up candles, then a candle closing at 100 and a
candle closing at 110. -/
def dataA : List Candle :=
  List.replicate 50 warmCandle ++ [Candle.mk 50 100 100 100, Candle.mk 51 110 110 110]

/-- Scenario A strategy: BUY "BTC" on the candle at index 50, SELL "BTC" on
the candle at index 51, no other signals and no metadata. -/
def genA : List Candle → List Signal := fun pref =>
  if pref.length = 51 then
    [Signal.mk SignalType.buy "BTC" (SignalMetadata.mk none none none)]
  else if pref.length = 52 then
    [Signal.mk SignalType.sell "BTC" (SignalMetadata.mk none none none)]
  else []

/-- C6: scenario A run through the event-driven engine: the default
10%-of-cash sizing buys 10 units at 100, the SELL exits at 110, and the run
ends with exactly one trade of pnl (110 − 100) × 10 = 100 and cash
10000 − 1000 + 1100 = 10100. -/
theorem scenario_a_end_to_end :
    ((BacktestEngine.init cfgA).run_event_driven genA dataA 6).trades.map
      (fun t => t.pnl) = [100] ∧
    ((BacktestEngine.init cfgA).run_event_driven genA dataA 6).trades.length = 1 ∧
    ((BacktestEngine.init cfgA).run_event_driven genA dataA 6).cash = 10100 := by
  have htake : dataA.take 50 = List.replicate 50 warmCandle := by
    unfold dataA
    exact List.take_left' (List.length_replicate 50 warmCandle)
  have hdrop : dataA.drop 50 =
      [Candle.mk 50 100 100 100, Candle.mk 51 110 110 110] := by
    unfold dataA
    exact List.drop_left' (List.length_replicate 50 warmCandle)
  have h1 : (SignalType.buy = SignalType.hold ∨ SignalType.buy = SignalType.no_signal) =
      False := eq_false (by decide)
  have h2 : (SignalType.sell = SignalType.hold ∨ SignalType.sell = SignalType.no_signal) =
      False := eq_false (by decide)
  have h3 : (SignalType.sell = SignalType.buy) = False := eq_false (by decide)
  unfold EngineState.run_event_driven
  norm_num [htake, hdrop]
  norm_num [h1, h2, h3, runFrom, genA, EngineState.step_candle,
    EngineState.check_exit_orders, EngineState.close_entries,
    EngineState.update_position_prices, updateOnePosition,
    BacktestPosition.update_price_tracking, EngineState.process_signal,
    Signal.is_actionable, EngineState.open_position, EngineState.open_position_value,
    EngineState.open_commission, EngineState.close_position,
    EngineState.close_position_at_price, BacktestPosition.calculate_pnl,
    BacktestPosition.calculate_pnl_percentage, BacktestPosition.exit_trigger,
    OptQ.truthy, EngineState.record_equity, BacktestEngine.init, cfgA,
    max_def, min_def]

/-! ## Configuration preservation: no engine operation rewrites `config` -/

theorem config_close_position_at_price (s : EngineState) (position : BacktestPosition)
    (price : ℚ) (ts : ℤ) (tt : TradeType) :
    (s.close_position_at_price position price ts tt).config = s.config := rfl

theorem config_open_position (s : EngineState) (sig : Signal) (candle : Candle)
    (ts : ℤ) : (s.open_position sig candle ts).config = s.config := by
  unfold EngineState.open_position
  dsimp only
  split <;> rfl

theorem config_close_position (s : EngineState) (sig : Signal) (candle : Candle)
    (ts : ℤ) (tt : TradeType) :
    (s.close_position sig candle ts tt).config = s.config := by
  unfold EngineState.close_position
  cases s.positions.find? (fun p => p.symbol == sig.symbol) <;> rfl

theorem config_close_entries (s : EngineState) (l : List (ℕ × TradeType × ℚ))
    (ts : ℤ) : (s.close_entries l ts).config = s.config := by
  induction l generalizing s with
  | nil => rfl
  | cons e rest ih =>
      unfold EngineState.close_entries
      cases s.positions.find? (fun p => p.id == e.1) <;>
        simp [ih, config_close_position_at_price]

theorem config_check_exit_orders (s : EngineState) (high low : ℚ) (ts : ℤ) :
    (s.check_exit_orders high low ts).config = s.config :=
  config_close_entries s _ ts

theorem config_update_position_prices (s : EngineState) (high low : ℚ) :
    (s.update_position_prices high low).config = s.config := rfl

theorem config_record_equity (s : EngineState) (ts : ℤ) (close : ℚ) :
    (s.record_equity ts close).config = s.config := rfl

theorem config_process_signal (s : EngineState) (sig : Signal) (candle : Candle)
    (ts : ℤ) : (s.process_signal sig candle ts).config = s.config := by
  unfold EngineState.process_signal
  split
  · rfl
  · split
    · rfl
    · split
      · exact config_open_position s sig candle ts
      · exact config_close_position s sig candle ts _
      · exact config_close_position s sig candle ts _
      · exact config_close_position s sig candle ts _
      · rfl

theorem config_signal_fold (s : EngineState) (signals : List Signal) (candle : Candle)
    (ts : ℤ) :
    (signals.foldl (fun st sig => st.process_signal sig candle ts) s).config = s.config := by
  induction signals generalizing s with
  | nil => rfl
  | cons sig rest ih =>
      simp only [List.foldl_cons]
      rw [ih, config_process_signal]

theorem config_step_candle (s : EngineState) (signals : List Signal) (candle : Candle) :
    (s.step_candle signals candle).config = s.config := by
  unfold EngineState.step_candle
  rw [config_record_equity, config_signal_fold, config_update_position_prices,
    config_check_exit_orders]

theorem config_runFrom (gen : List Candle → List Signal) (past rest : List Candle)
    (s : EngineState) : (runFrom gen past rest s).config = s.config := by
  induction rest generalizing past s with
  | nil => rfl
  | cons c rest ih =>
      unfold runFrom
      rw [ih, config_step_candle]

/-! ## Position-count bounds -/

theorem length_close_position_at_price (s : EngineState) (position : BacktestPosition)
    (price : ℚ) (ts : ℤ) (tt : TradeType) :
    (s.close_position_at_price position price ts tt).positions.length ≤
      s.positions.length := by
  unfold EngineState.close_position_at_price
  exact List.length_eraseP_le s.positions

theorem length_close_position (s : EngineState) (sig : Signal) (candle : Candle)
    (ts : ℤ) (tt : TradeType) :
    (s.close_position sig candle ts tt).positions.length ≤ s.positions.length := by
  unfold EngineState.close_position
  cases s.positions.find? (fun p => p.symbol == sig.symbol) with
  | none => exact le_refl _
  | some position => exact length_close_position_at_price s position _ ts tt

theorem length_close_entries (s : EngineState) (l : List (ℕ × TradeType × ℚ))
    (ts : ℤ) : (s.close_entries l ts).positions.length ≤ s.positions.length := by
  induction l generalizing s with
  | nil => exact le_refl _
  | cons e rest ih =>
      unfold EngineState.close_entries
      cases h : s.positions.find? (fun p => p.id == e.1) with
      | none => exact ih s
      | some position =>
          exact le_trans (ih _) (length_close_position_at_price s position _ ts _)

theorem length_check_exit_orders (s : EngineState) (high low : ℚ) (ts : ℤ) :
    (s.check_exit_orders high low ts).positions.length ≤ s.positions.length :=
  length_close_entries s _ ts

theorem length_update_position_prices (s : EngineState) (high low : ℚ) :
    (s.update_position_prices high low).positions.length = s.positions.length := by
  unfold EngineState.update_position_prices
  exact List.length_map _ _

theorem length_record_equity (s : EngineState) (ts : ℤ) (close : ℚ) :
    (s.record_equity ts close).positions.length = s.positions.length := rfl

theorem length_open_position (s : EngineState) (sig : Signal) (candle : Candle)
    (ts : ℤ) :
    (s.open_position sig candle ts).positions.length ≤ s.positions.length + 1 := by
  unfold EngineState.open_position
  dsimp only
  split
  · exact Nat.le_succ _
  · simp

/-- Processing one signal keeps the open-position count at or below
`max_positions`: a BUY is refused outright at the cap, and every other
signal can only close positions. -/
theorem process_signal_le_max (s : EngineState) (sig : Signal) (candle : Candle)
    (ts : ℤ) (h : (s.positions.length : ℤ) ≤ s.config.max_positions) :
    ((s.process_signal sig candle ts).positions.length : ℤ) ≤
      s.config.max_positions := by
  have hclose : ∀ tt, ((s.close_position sig candle ts tt).positions.length : ℤ) ≤
      s.config.max_positions :=
    fun tt => le_trans (by exact_mod_cast length_close_position s sig candle ts tt) h
  unfold EngineState.process_signal
  cases hty : sig.type with
  | buy =>
      by_cases hcap : s.config.max_positions ≤ (s.positions.length : ℤ)
      · simp only [Signal.is_actionable, hty]
        norm_num
        rw [if_pos hcap]
        exact h
      · have hopen : ((s.open_position sig candle ts).positions.length : ℤ) ≤
            s.config.max_positions := by
          have h1 : (s.open_position sig candle ts).positions.length ≤
              s.positions.length + 1 := length_open_position s sig candle ts
          have h2 : (s.positions.length : ℤ) < s.config.max_positions :=
            lt_of_not_le hcap
          have h3 : ((s.open_position sig candle ts).positions.length : ℤ) ≤
              (s.positions.length : ℤ) + 1 := by exact_mod_cast h1
          omega
        simp only [Signal.is_actionable, hty]
        norm_num
        rw [if_neg hcap]
        exact hopen
  | sell =>
      simp only [Signal.is_actionable, hty]
      norm_num
      exact hclose _
  | hold =>
      simp only [Signal.is_actionable, hty]
      norm_num
      exact h
  | close_long =>
      simp only [Signal.is_actionable, hty]
      norm_num
      exact hclose _
  | close_short =>
      simp only [Signal.is_actionable, hty]
      norm_num
      exact hclose _
  | no_signal =>
      simp only [Signal.is_actionable, hty]
      norm_num
      exact h

theorem signal_fold_le_max (signals : List Signal) (s : EngineState) (candle : Candle)
    (ts : ℤ) (h : (s.positions.length : ℤ) ≤ s.config.max_positions) :
    (((signals.foldl (fun st sig => st.process_signal sig candle ts) s).positions.length : ℤ)) ≤
      s.config.max_positions := by
  induction signals generalizing s with
  | nil => exact h
  | cons sig rest ih =>
      simp only [List.foldl_cons]
      have hstep := process_signal_le_max s sig candle ts h
      have hcfg := config_process_signal s sig candle ts
      have := ih (s.process_signal sig candle ts) (by rw [hcfg]; exact hstep)
      rw [hcfg] at this
      exact this

theorem step_candle_le_max (s : EngineState) (signals : List Signal) (candle : Candle)
    (h : (s.positions.length : ℤ) ≤ s.config.max_positions) :
    ((s.step_candle signals candle).positions.length : ℤ) ≤ s.config.max_positions := by
  unfold EngineState.step_candle
  have h1 : ((s.check_exit_orders candle.high candle.low candle.timestamp).positions.length : ℤ) ≤
      s.config.max_positions :=
    le_trans (by exact_mod_cast length_check_exit_orders s candle.high candle.low candle.timestamp) h
  set s1 := s.check_exit_orders candle.high candle.low candle.timestamp with hs1
  have hc1 : s1.config = s.config := config_check_exit_orders s candle.high candle.low candle.timestamp
  have h2 : ((s1.update_position_prices candle.high candle.low).positions.length : ℤ) ≤
      s.config.max_positions := by
    rw [length_update_position_prices]
    exact h1
  set s2 := s1.update_position_prices candle.high candle.low with hs2
  have hc2 : s2.config = s.config := by
    rw [hs2, config_update_position_prices, hc1]
  have h3 := signal_fold_le_max signals s2 candle candle.timestamp (by rw [hc2]; exact h2)
  rw [hc2] at h3
  rw [length_record_equity]
  exact h3

/-! ## Claim C1: positions per symbol -/

/-- C1 (amended): the engine enforces only the `max_positions` cap, never
per-symbol uniqueness: throughout any replay the number of simultaneously
open positions stays at or below `config.max_positions` whenever it started
there (the position map is keyed by a fresh `pos_{n}` id, so nothing stops
two open positions from sharing a symbol — see the counterexample). -/
theorem open_positions_le_max_positions (gen : List Candle → List Signal)
    (past rest : List Candle) (s : EngineState)
    (h : (s.positions.length : ℤ) ≤ s.config.max_positions) :
    (((runFrom gen past rest s).positions.length : ℤ)) ≤ s.config.max_positions := by
  induction rest generalizing past s with
  | nil => exact h
  | cons c rest ih =>
      unfold runFrom
      have hstep := step_candle_le_max s (gen (past ++ [c])) c h
      have hcfg := config_step_candle s (gen (past ++ [c])) c
      have := ih (past ++ [c]) (s.step_candle (gen (past ++ [c])) c)
        (by rw [hcfg]; exact hstep)
      rw [hcfg] at this
      exact this

/-- Witness for C1 (amended): the scenario-A replay starts at the cap bound
and never exceeds one open position. -/
theorem open_positions_le_max_positions_witness :
    (((runFrom genA (dataA.take 50) (dataA.drop 50)
        (BacktestEngine.init cfgA)).positions.length : ℤ)) ≤
      (BacktestEngine.init cfgA).config.max_positions := by
  apply open_positions_le_max_positions
  norm_num [BacktestEngine.init, cfgA]

/-- The counterexample strategy for C1: BUY the same symbol on two
consecutive candles. -/
def genDouble : List Candle → List Signal := fun pref =>
  if pref.length = 51 ∨ pref.length = 52 then
    [Signal.mk SignalType.buy "BTC" (SignalMetadata.mk none none none)]
  else []

/-- A scenario-A style config with room for five open positions. -/
def cfgFive : BacktestConfig := BacktestConfig.mk 0 100 10000 0 0 5 false 2

/-- Counterexample for C1: replaying two BUY signals for the same symbol
(under the position cap, with ample cash) leaves TWO simultaneously open
positions for "BTC" — `_process_signal` never checks whether the symbol is
already held, so the claimed per-symbol uniqueness invariant is false. -/
theorem duplicate_symbol_positions_cex :
    ((BacktestEngine.init cfgFive).run_event_driven genDouble dataA 6).positions.map
      (fun p => p.symbol) = ["BTC", "BTC"] ∧
    ((BacktestEngine.init cfgFive).run_event_driven genDouble dataA 6).positions.length = 2 := by
  have htake : dataA.take 50 = List.replicate 50 warmCandle := by
    unfold dataA
    exact List.take_left' (List.length_replicate 50 warmCandle)
  have hdrop : dataA.drop 50 =
      [Candle.mk 50 100 100 100, Candle.mk 51 110 110 110] := by
    unfold dataA
    exact List.drop_left' (List.length_replicate 50 warmCandle)
  have h1 : (SignalType.buy = SignalType.hold ∨ SignalType.buy = SignalType.no_signal) =
      False := eq_false (by decide)
  unfold EngineState.run_event_driven
  norm_num [htake, hdrop]
  norm_num [h1, runFrom, genDouble, EngineState.step_candle,
    EngineState.check_exit_orders, EngineState.close_entries,
    EngineState.update_position_prices, updateOnePosition,
    BacktestPosition.update_price_tracking, EngineState.process_signal,
    Signal.is_actionable, EngineState.open_position, EngineState.open_position_value,
    EngineState.open_commission, BacktestPosition.exit_trigger,
    OptQ.truthy, EngineState.record_equity, BacktestEngine.init, cfgFive,
    max_def, min_def]

/-! ## Claim C4: drawdown bookkeeping -/

/-- The running high-water mark the engine maintains: the maximum of the
seed `p0` and all recorded equities. -/
def runPeak (p0 : ℚ) (l : List ℚ) : ℚ := l.foldl max p0

theorem runPeak_append (p0 : ℚ) (l : List ℚ) (x : ℚ) :
    runPeak p0 (l ++ [x]) = max (runPeak p0 l) x := by
  unfold runPeak
  rw [List.foldl_append]
  rfl

/-- The bookkeeping invariant tying `peak_equity` and the stored drawdown
fields to the equity history and the peak seed `p0`. -/
def EquityCurveInv (p0 : ℚ) (s : EngineState) : Prop :=
  s.peak_equity = runPeak p0 (s.equity_curve.map (fun e => e.equity)) ∧
  ∀ i e, s.equity_curve[i]? = some e →
    e.drawdown =
      runPeak p0 ((s.equity_curve.map (fun q => q.equity)).take (i + 1)) - e.equity ∧
    e.drawdown_percentage =
      (if 0 < runPeak p0 ((s.equity_curve.map (fun q => q.equity)).take (i + 1)) then
        (e.drawdown / runPeak p0 ((s.equity_curve.map (fun q => q.equity)).take (i + 1))) * 100
      else 0)

/-- Every engine operation except `_record_equity` leaves `peak_equity` and
the equity curve untouched. -/
theorem curve_open_position (s : EngineState) (sig : Signal) (candle : Candle)
    (ts : ℤ) : (s.open_position sig candle ts).peak_equity = s.peak_equity ∧
      (s.open_position sig candle ts).equity_curve = s.equity_curve := by
  unfold EngineState.open_position
  dsimp only
  split <;> exact ⟨rfl, rfl⟩

theorem curve_close_position_at_price (s : EngineState) (position : BacktestPosition)
    (price : ℚ) (ts : ℤ) (tt : TradeType) :
    (s.close_position_at_price position price ts tt).peak_equity = s.peak_equity ∧
    (s.close_position_at_price position price ts tt).equity_curve = s.equity_curve :=
  ⟨rfl, rfl⟩

theorem curve_close_position (s : EngineState) (sig : Signal) (candle : Candle)
    (ts : ℤ) (tt : TradeType) :
    (s.close_position sig candle ts tt).peak_equity = s.peak_equity ∧
    (s.close_position sig candle ts tt).equity_curve = s.equity_curve := by
  unfold EngineState.close_position
  cases s.positions.find? (fun p => p.symbol == sig.symbol) <;> exact ⟨rfl, rfl⟩

theorem curve_close_entries (s : EngineState) (l : List (ℕ × TradeType × ℚ))
    (ts : ℤ) : (s.close_entries l ts).peak_equity = s.peak_equity ∧
      (s.close_entries l ts).equity_curve = s.equity_curve := by
  induction l generalizing s with
  | nil => exact ⟨rfl, rfl⟩
  | cons e rest ih =>
      unfold EngineState.close_entries
      cases s.positions.find? (fun p => p.id == e.1) with
      | none => exact ih s
      | some position =>
          refine ⟨?_, ?_⟩
          · rw [(ih _).1]
            exact (curve_close_position_at_price s position e.2.2 ts e.2.1).1
          · rw [(ih _).2]
            exact (curve_close_position_at_price s position e.2.2 ts e.2.1).2

theorem curve_check_exit_orders (s : EngineState) (high low : ℚ) (ts : ℤ) :
    (s.check_exit_orders high low ts).peak_equity = s.peak_equity ∧
    (s.check_exit_orders high low ts).equity_curve = s.equity_curve :=
  curve_close_entries s _ ts

theorem curve_update_position_prices (s : EngineState) (high low : ℚ) :
    (s.update_position_prices high low).peak_equity = s.peak_equity ∧
    (s.update_position_prices high low).equity_curve = s.equity_curve :=
  ⟨rfl, rfl⟩

theorem curve_process_signal (s : EngineState) (sig : Signal) (candle : Candle)
    (ts : ℤ) : (s.process_signal sig candle ts).peak_equity = s.peak_equity ∧
      (s.process_signal sig candle ts).equity_curve = s.equity_curve := by
  unfold EngineState.process_signal
  split
  · exact ⟨rfl, rfl⟩
  · split
    · exact ⟨rfl, rfl⟩
    · split
      · exact curve_open_position s sig candle ts
      · exact curve_close_position s sig candle ts _
      · exact curve_close_position s sig candle ts _
      · exact curve_close_position s sig candle ts _
      · exact ⟨rfl, rfl⟩

theorem curve_signal_fold (signals : List Signal) (s : EngineState) (candle : Candle)
    (ts : ℤ) :
    ((signals.foldl (fun st sig => st.process_signal sig candle ts) s).peak_equity =
      s.peak_equity) ∧
    ((signals.foldl (fun st sig => st.process_signal sig candle ts) s).equity_curve =
      s.equity_curve) := by
  induction signals generalizing s with
  | nil => exact ⟨rfl, rfl⟩
  | cons sig rest ih =>
      simp only [List.foldl_cons]
      refine ⟨?_, ?_⟩
      · rw [(ih _).1, (curve_process_signal s sig candle ts).1]
      · rw [(ih _).2, (curve_process_signal s sig candle ts).2]

/-- `EquityCurveInv` only depends on `peak_equity` and `equity_curve`. -/
theorem equityCurveInv_of_eq (p0 : ℚ) (s t : EngineState)
    (hpeak : t.peak_equity = s.peak_equity) (hcurve : t.equity_curve = s.equity_curve)
    (h : EquityCurveInv p0 s) : EquityCurveInv p0 t := by
  unfold EquityCurveInv at h ⊢
  rw [hpeak, hcurve]
  exact h

/-- Appending one equity point whose drawdown fields follow the running
peak maintains the bookkeeping invariant. -/
theorem curve_inv_append (p0 : ℚ) (s t : EngineState) {pt : EquityPoint}
    (h : EquityCurveInv p0 s)
    (ht_curve : t.equity_curve = s.equity_curve ++ [pt])
    (ht_peak : t.peak_equity = max s.peak_equity pt.equity)
    (hdd : pt.drawdown = max s.peak_equity pt.equity - pt.equity)
    (hpct : pt.drawdown_percentage =
      if 0 < max s.peak_equity pt.equity then
        pt.drawdown / max s.peak_equity pt.equity * 100
      else 0) :
    EquityCurveInv p0 t := by
  obtain ⟨hpeak, hpts⟩ := h
  constructor
  · rw [ht_peak, ht_curve, hpeak, List.map_append]
    simp [runPeak_append]
  · intro i e he
    rw [ht_curve] at he
    rw [ht_curve]
    by_cases hi : i < s.equity_curve.length
    · rw [List.getElem?_append_left hi] at he
      have hmaplen : i + 1 ≤ (s.equity_curve.map (fun q => q.equity)).length := by
        rw [List.length_map]
        omega
      rw [List.map_append, List.take_append_of_le_length hmaplen]
      exact hpts i e he
    · have hlt : ¬ ((s.equity_curve ++ [pt]).length ≤ i) := by
        intro hge
        rw [List.getElem?_eq_none hge] at he
        exact Option.noConfusion he
      have hieq : i = s.equity_curve.length := by
        rw [List.length_append, List.length_singleton] at hlt
        omega
      subst hieq
      rw [List.getElem?_concat_length] at he
      cases he
      have hetake : ((s.equity_curve.map fun q => q.equity) ++ [pt.equity]).take
          (s.equity_curve.length + 1) =
          (s.equity_curve.map fun q => q.equity) ++ [pt.equity] := by
        apply List.take_of_length_le
        rw [List.length_append, List.length_map, List.length_singleton]
      rw [List.map_append]
      simp only [List.map_cons, List.map_nil]
      rw [hetake, runPeak_append, ← hpeak]
      exact ⟨hdd, hpct⟩

/-- `_record_equity` maintains the bookkeeping invariant: the appended point
stores drawdown relative to the updated running peak. -/
theorem record_equity_inv (p0 : ℚ) (s : EngineState) (ts : ℤ) (close : ℚ)
    (h : EquityCurveInv p0 s) : EquityCurveInv p0 (s.record_equity ts close) :=
  curve_inv_append p0 s _ h rfl rfl rfl rfl

/-- One candle step maintains the bookkeeping invariant. -/
theorem step_candle_inv (p0 : ℚ) (s : EngineState) (signals : List Signal)
    (candle : Candle) (h : EquityCurveInv p0 s) :
    EquityCurveInv p0 (s.step_candle signals candle) := by
  unfold EngineState.step_candle
  apply record_equity_inv
  apply equityCurveInv_of_eq p0 _ _ (curve_signal_fold _ _ _ _).1 (curve_signal_fold _ _ _ _).2
  apply equityCurveInv_of_eq p0 _ _ (curve_update_position_prices _ _ _).1
    (curve_update_position_prices _ _ _).2
  exact equityCurveInv_of_eq p0 _ _ (curve_check_exit_orders _ _ _ _).1
    (curve_check_exit_orders _ _ _ _).2 h

theorem runFrom_inv (p0 : ℚ) (gen : List Candle → List Signal) (past rest : List Candle)
    (s : EngineState) (h : EquityCurveInv p0 s) :
    EquityCurveInv p0 (runFrom gen past rest s) := by
  induction rest generalizing past s with
  | nil => exact h
  | cons c rest ih =>
      unfold runFrom
      exact ih (past ++ [c]) _ (step_candle_inv p0 s _ c h)

/-- C4 (amended): in every replay from a reset engine, the stored drawdown
at index `i` equals the running peak minus the equity, where the running
peak is the maximum of the INITIAL CAPITAL and the recorded equities up to
`i` (the peak tracker is seeded with `initial_capital` by `reset`, not with
the first recorded equity), and the stored percentage is that drawdown over
the same peak times 100 when the peak is positive, else 0. -/
theorem drawdown_recursion_correct (cfg : BacktestConfig)
    (gen : List Candle → List Signal) (past rest : List Candle) (i : ℕ)
    (e : EquityPoint)
    (he : (runFrom gen past rest ((BacktestEngine.init cfg).reset)).equity_curve[i]? =
      some e) :
    e.drawdown = runPeak cfg.initial_capital
      (((runFrom gen past rest ((BacktestEngine.init cfg).reset)).equity_curve.map
        (fun q => q.equity)).take (i + 1)) - e.equity ∧
    e.drawdown_percentage =
      (if 0 < runPeak cfg.initial_capital
          (((runFrom gen past rest ((BacktestEngine.init cfg).reset)).equity_curve.map
            (fun q => q.equity)).take (i + 1)) then
        (e.drawdown / runPeak cfg.initial_capital
          (((runFrom gen past rest ((BacktestEngine.init cfg).reset)).equity_curve.map
            (fun q => q.equity)).take (i + 1))) * 100
      else 0) := by
  have hinv : EquityCurveInv cfg.initial_capital ((BacktestEngine.init cfg).reset) := by
    constructor
    · rfl
    · intro j q hq
      simp [BacktestEngine.init, EngineState.reset] at hq
  exact (runFrom_inv cfg.initial_capital gen past rest _ hinv).2 i e he

/-- Witness for C4: a one-candle replay with no signals records equity
10000 with drawdown 0, matching the peak formula. -/
theorem drawdown_recursion_correct_witness :
    (EquityPoint.mk 0 10000 10000 0 0 0).drawdown =
      runPeak cfgA.initial_capital
        (((runFrom (fun _ => []) [] [Candle.mk 0 100 100 100]
          ((BacktestEngine.init cfgA).reset)).equity_curve.map
            (fun q => q.equity)).take 1) - (EquityPoint.mk 0 10000 10000 0 0 0).equity ∧
    (EquityPoint.mk 0 10000 10000 0 0 0).drawdown_percentage =
      (if 0 < runPeak cfgA.initial_capital
          (((runFrom (fun _ => []) [] [Candle.mk 0 100 100 100]
            ((BacktestEngine.init cfgA).reset)).equity_curve.map
              (fun q => q.equity)).take 1) then
        ((EquityPoint.mk 0 10000 10000 0 0 0).drawdown / runPeak cfgA.initial_capital
          (((runFrom (fun _ => []) [] [Candle.mk 0 100 100 100]
            ((BacktestEngine.init cfgA).reset)).equity_curve.map
              (fun q => q.equity)).take 1)) * 100
      else 0) := by
  apply drawdown_recursion_correct cfgA (fun _ => []) [] [Candle.mk 0 100 100 100] 0
  norm_num [runFrom, EngineState.step_candle, EngineState.check_exit_orders,
    EngineState.close_entries, EngineState.update_position_prices,
    EngineState.record_equity, EngineState.reset, BacktestEngine.init, cfgA,
    max_def]

/-- The counterexample configuration for C4: a 10% commission rate so that
the first recorded equity sits below the initial capital. -/
def cfgB : BacktestConfig := BacktestConfig.mk 0 100 10000 (1 / 10) 0 5 false 2

/-- Fifty-one candles: the warm-up plus a single traded candle. -/
def dataB : List Candle := List.replicate 50 warmCandle ++ [Candle.mk 50 100 100 100]

/-- BUY "BTC" on the candle at index 50. -/
def genB : List Candle → List Signal := fun pref =>
  if pref.length = 51 then
    [Signal.mk SignalType.buy "BTC" (SignalMetadata.mk none none none)]
  else []

/-- Counterexample for C4: after the entry commission of 100, the only
recorded equity is 9900, yet the stored drawdown is 100, not
`max(equity[0..0]) − equity[0] = 9900 − 9900 = 0`: the stored peak is
seeded with the initial capital 10000, not with the recorded equities. -/
theorem drawdown_peak_seed_cex :
    ((BacktestEngine.init cfgB).run_event_driven genB dataB 6).equity_curve.map
      (fun e => e.equity) = [9900] ∧
    ((BacktestEngine.init cfgB).run_event_driven genB dataB 6).equity_curve.map
      (fun e => e.drawdown) = [100] ∧
    (100 : ℚ) ≠ 9900 - 9900 := by
  have htake : dataB.take 50 = List.replicate 50 warmCandle := by
    unfold dataB
    exact List.take_left' (List.length_replicate 50 warmCandle)
  have hdrop : dataB.drop 50 = [Candle.mk 50 100 100 100] := by
    unfold dataB
    exact List.drop_left' (List.length_replicate 50 warmCandle)
  have h1 : (SignalType.buy = SignalType.hold ∨ SignalType.buy = SignalType.no_signal) =
      False := eq_false (by decide)
  unfold EngineState.run_event_driven
  norm_num [htake, hdrop]
  norm_num [h1, runFrom, genB, EngineState.step_candle,
    EngineState.check_exit_orders, EngineState.close_entries,
    EngineState.update_position_prices, updateOnePosition,
    BacktestPosition.update_price_tracking, EngineState.process_signal,
    Signal.is_actionable, EngineState.open_position, EngineState.open_position_value,
    EngineState.open_commission, BacktestPosition.exit_trigger,
    OptQ.truthy, EngineState.record_equity, BacktestEngine.init, cfgB,
    max_def, min_def]

/-! ## Claim C3: cash never goes negative -/

/-- Well-formedness of a configuration for the cash invariant: fractional
commission and slippage rates (at most 100%) and a trailing percentage of
at most 100. -/
def WFConfig (c : BacktestConfig) : Prop :=
  0 ≤ c.commission ∧ c.commission ≤ 1 ∧ 0 ≤ c.slippage ∧ c.slippage ≤ 1 ∧
  0 ≤ c.trailing_stop_percent ∧ c.trailing_stop_percent ≤ 100

/-- Well-formedness of a candle: nonnegative prices. -/
def WFCandle (c : Candle) : Prop := 0 ≤ c.high ∧ 0 ≤ c.low ∧ 0 ≤ c.close

/-- Well-formedness of a signal: nonnegative sizing and stop metadata. -/
def WFSignal (sig : Signal) : Prop :=
  OptNonneg sig.metadata.position_size_pct ∧ OptNonneg sig.metadata.stop_loss ∧
  OptNonneg sig.metadata.take_profit

/-- The per-position facts the cash invariant relies on: nonnegative size,
tracked high, and stored exit prices. -/
def PosOK (p : BacktestPosition) : Prop :=
  0 ≤ p.size ∧ 0 ≤ p.highest_price ∧ OptNonneg p.stop_loss ∧
  OptNonneg p.take_profit ∧ OptNonneg p.trailing_stop

/-- The cash invariant: nonnegative cash and well-formed open positions. -/
def CashInv (s : EngineState) : Prop :=
  0 ≤ s.cash ∧ ∀ p ∈ s.positions, PosOK p

theorem open_position_value_nonneg (s : EngineState) (sig : Signal)
    (h0 : 0 ≤ s.cash) (hs : OptNonneg sig.metadata.position_size_pct) :
    0 ≤ s.open_position_value sig := by
  unfold EngineState.open_position_value
  cases hm : sig.metadata.position_size_pct with
  | none => positivity
  | some p =>
      rw [hm] at hs
      unfold OptNonneg at hs
      dsimp only
      split
      · exact mul_nonneg h0 (by positivity)
      · positivity

theorem open_position_cash_inv (s : EngineState) (sig : Signal) (candle : Candle)
    (ts : ℤ) (hcfg : WFConfig s.config) (hc : WFCandle candle) (hs : WFSignal sig)
    (h : CashInv s) : CashInv (s.open_position sig candle ts) := by
  obtain ⟨hcash, hpos⟩ := h
  unfold EngineState.open_position
  dsimp only
  split
  · exact ⟨hcash, hpos⟩
  · next hge =>
      constructor
      · have : s.open_position_value sig + s.open_commission sig ≤ s.cash :=
          le_of_not_lt hge
        linarith
      · intro p hp
        rcases List.mem_append.mp hp with hold | hnew
        · exact hpos p hold
        · rcases List.mem_singleton.mp hnew with rfl
          have hpv : 0 ≤ s.open_position_value sig :=
            open_position_value_nonneg s sig hcash hs.1
          have hentry : 0 ≤ candle.close * (1 + s.config.slippage) :=
            mul_nonneg hc.2.2 (by have := hcfg.2.2.1; linarith)
          exact ⟨div_nonneg hpv hentry, hentry, hs.2.1, hs.2.2, trivial⟩

theorem close_position_at_price_cash_inv (s : EngineState)
    (position : BacktestPosition) (price : ℚ) (ts : ℤ) (tt : TradeType)
    (hcfg : WFConfig s.config) (hprice : 0 ≤ price) (hsize : 0 ≤ position.size)
    (h : CashInv s) : CashInv (s.close_position_at_price position price ts tt) := by
  obtain ⟨hcash, hpos⟩ := h
  constructor
  · show 0 ≤ s.cash + (price * position.size -
      price * position.size * s.config.commission)
    have hpv : 0 ≤ price * position.size := mul_nonneg hprice hsize
    have hfrac : 0 ≤ price * position.size * (1 - s.config.commission) :=
      mul_nonneg hpv (by have := hcfg.2.1; linarith)
    nlinarith
  · intro p hp
    exact hpos p ((List.eraseP_sublist s.positions).subset hp)

theorem close_position_cash_inv (s : EngineState) (sig : Signal) (candle : Candle)
    (ts : ℤ) (tt : TradeType) (hcfg : WFConfig s.config) (hc : WFCandle candle)
    (h : CashInv s) : CashInv (s.close_position sig candle ts tt) := by
  unfold EngineState.close_position
  cases hf : s.positions.find? (fun p => p.symbol == sig.symbol) with
  | none => exact h
  | some position =>
      have hmem : position ∈ s.positions := List.mem_of_find?_eq_some hf
      have hprice : 0 ≤ candle.close * (1 - s.config.slippage) :=
        mul_nonneg hc.2.2 (by have := hcfg.2.2.2.1; linarith)
      exact close_position_at_price_cash_inv s position _ ts tt hcfg hprice
        ((h.2 position hmem).1) h

/-- Every trigger entry a well-formed position emits carries a nonnegative
close price (it is one of the stored stop/target/trailing prices). -/
theorem exit_trigger_price_nonneg (p : BacktestPosition) (high low : ℚ)
    (hp : PosOK p) (e : ℕ × TradeType × ℚ) (h : p.exit_trigger high low = some e) :
    0 ≤ e.2.2 := by
  unfold BacktestPosition.exit_trigger at h
  split at h
  · next hcond =>
      cases h
      cases hsl : p.stop_loss with
      | none => rw [hsl] at hcond; simp [OptQ.truthy] at hcond
      | some v =>
          have := hp.2.2.1
          rw [hsl] at this
          simpa [hsl] using this
  · split at h
    · next hcond =>
        cases h
        cases htp : p.take_profit with
        | none => rw [htp] at hcond; simp [OptQ.truthy] at hcond
        | some v =>
            have := hp.2.2.2.1
            rw [htp] at this
            simpa [htp] using this
    · split at h
      · next hcond =>
          cases h
          cases htr : p.trailing_stop with
          | none => rw [htr] at hcond; simp [OptQ.truthy] at hcond
          | some v =>
              have := hp.2.2.2.2
              rw [htr] at this
              simpa [htr] using this
      · exact absurd h (by simp)

theorem close_entries_cash_inv (l : List (ℕ × TradeType × ℚ)) (s : EngineState)
    (ts : ℤ) (hcfg : WFConfig s.config) (hl : ∀ e ∈ l, 0 ≤ e.2.2)
    (h : CashInv s) : CashInv (s.close_entries l ts) := by
  induction l generalizing s with
  | nil => exact h
  | cons e rest ih =>
      unfold EngineState.close_entries
      cases hf : s.positions.find? (fun p => p.id == e.1) with
      | none => exact ih s hcfg (fun q hq => hl q (List.mem_cons_of_mem e hq)) h
      | some position =>
          have hmem : position ∈ s.positions := List.mem_of_find?_eq_some hf
          have hnext : CashInv (s.close_position_at_price position e.2.2 ts e.2.1) :=
            close_position_at_price_cash_inv s position e.2.2 ts e.2.1 hcfg
              (hl e (List.mem_cons_self e rest)) ((h.2 position hmem).1) h
          exact ih _ (by rw [config_close_position_at_price]; exact hcfg)
            (fun q hq => hl q (List.mem_cons_of_mem e hq)) hnext

theorem check_exit_orders_cash_inv (s : EngineState) (high low : ℚ) (ts : ℤ)
    (hcfg : WFConfig s.config) (h : CashInv s) :
    CashInv (s.check_exit_orders high low ts) := by
  unfold EngineState.check_exit_orders
  apply close_entries_cash_inv _ s ts hcfg _ h
  intro e he
  rcases List.mem_filterMap.mp he with ⟨p, hpmem, htr⟩
  exact exit_trigger_price_nonneg p high low (h.2 p hpmem) e htr

theorem updateOnePosition_posOK (config : BacktestConfig) (high low : ℚ)
    (p : BacktestPosition) (hcfg : WFConfig config) (hp : PosOK p) :
    PosOK (updateOnePosition config high low p) := by
  have hhigh : 0 ≤ max p.highest_price high := le_trans hp.2.1 (le_max_left _ _)
  have hnew : 0 ≤ max p.highest_price high * (1 - config.trailing_stop_percent / 100) := by
    apply mul_nonneg hhigh
    have h1 := hcfg.2.2.2.2.2
    linarith
  unfold updateOnePosition BacktestPosition.update_price_tracking
  dsimp only
  split
  · split
    · cases htr : p.trailing_stop with
      | none => exact ⟨hp.1, hhigh, hp.2.2.1, hp.2.2.2.1, hnew⟩
      | some t =>
          dsimp only
          split
          · exact ⟨hp.1, hhigh, hp.2.2.1, hp.2.2.2.1, hnew⟩
          · refine ⟨hp.1, hhigh, hp.2.2.1, hp.2.2.2.1, ?_⟩
            have := hp.2.2.2.2
            rw [htr] at this
            exact this
    · exact ⟨hp.1, hhigh, hp.2.2.1, hp.2.2.2.1, hp.2.2.2.2⟩
  · exact ⟨hp.1, hhigh, hp.2.2.1, hp.2.2.2.1, hp.2.2.2.2⟩

theorem update_position_prices_cash_inv (s : EngineState) (high low : ℚ)
    (hcfg : WFConfig s.config) (h : CashInv s) :
    CashInv (s.update_position_prices high low) := by
  refine ⟨h.1, ?_⟩
  intro p hp
  unfold EngineState.update_position_prices at hp
  rcases List.mem_map.mp hp with ⟨q, hq, rfl⟩
  exact updateOnePosition_posOK s.config high low q hcfg (h.2 q hq)

theorem record_equity_cash_inv (s : EngineState) (ts : ℤ) (close : ℚ)
    (h : CashInv s) : CashInv (s.record_equity ts close) :=
  ⟨h.1, h.2⟩

theorem process_signal_cash_inv (s : EngineState) (sig : Signal) (candle : Candle)
    (ts : ℤ) (hcfg : WFConfig s.config) (hc : WFCandle candle) (hs : WFSignal sig)
    (h : CashInv s) : CashInv (s.process_signal sig candle ts) := by
  unfold EngineState.process_signal
  cases hty : sig.type with
  | buy =>
      by_cases hcap : s.config.max_positions ≤ (s.positions.length : ℤ)
      · simp only [Signal.is_actionable, hty]
        norm_num
        rw [if_pos hcap]
        exact h
      · simp only [Signal.is_actionable, hty]
        norm_num
        rw [if_neg hcap]
        exact open_position_cash_inv s sig candle ts hcfg hc hs h
  | sell =>
      simp only [Signal.is_actionable, hty]
      norm_num
      exact close_position_cash_inv s sig candle ts _ hcfg hc h
  | hold =>
      simp only [Signal.is_actionable, hty]
      norm_num
      exact h
  | close_long =>
      simp only [Signal.is_actionable, hty]
      norm_num
      exact close_position_cash_inv s sig candle ts _ hcfg hc h
  | close_short =>
      simp only [Signal.is_actionable, hty]
      norm_num
      exact close_position_cash_inv s sig candle ts _ hcfg hc h
  | no_signal =>
      simp only [Signal.is_actionable, hty]
      norm_num
      exact h

theorem signal_fold_cash_inv (signals : List Signal) (s : EngineState)
    (candle : Candle) (ts : ℤ) (hcfg : WFConfig s.config) (hc : WFCandle candle)
    (hs : ∀ sig ∈ signals, WFSignal sig) (h : CashInv s) :
    CashInv (signals.foldl (fun st sig => st.process_signal sig candle ts) s) := by
  induction signals generalizing s with
  | nil => exact h
  | cons sig rest ih =>
      simp only [List.foldl_cons]
      exact ih _ (by rw [config_process_signal]; exact hcfg)
        (fun q hq => hs q (List.mem_cons_of_mem sig hq))
        (process_signal_cash_inv s sig candle ts hcfg hc
          (hs sig (List.mem_cons_self sig rest)) h)

theorem step_candle_cash_inv (s : EngineState) (signals : List Signal)
    (candle : Candle) (hcfg : WFConfig s.config) (hc : WFCandle candle)
    (hs : ∀ sig ∈ signals, WFSignal sig) (h : CashInv s) :
    CashInv (s.step_candle signals candle) := by
  unfold EngineState.step_candle
  apply record_equity_cash_inv
  apply signal_fold_cash_inv signals _ candle candle.timestamp
  · rw [config_update_position_prices, config_check_exit_orders]
    exact hcfg
  · exact hc
  · exact hs
  · apply update_position_prices_cash_inv
    · rw [config_check_exit_orders]
      exact hcfg
    · exact check_exit_orders_cash_inv s candle.high candle.low candle.timestamp hcfg h

theorem runFrom_cash_inv (gen : List Candle → List Signal) (past rest : List Candle)
    (s : EngineState) (hcfg : WFConfig s.config) (hc : ∀ c ∈ rest, WFCandle c)
    (hs : ∀ pref sig, sig ∈ gen pref → WFSignal sig) (h : CashInv s) :
    CashInv (runFrom gen past rest s) := by
  induction rest generalizing past s with
  | nil => exact h
  | cons c rest ih =>
      unfold runFrom
      apply ih (past ++ [c])
      · rw [config_step_candle]
        exact hcfg
      · exact fun q hq => hc q (List.mem_cons_of_mem c hq)
      · exact step_candle_cash_inv s _ c hcfg (hc c (List.mem_cons_self c rest))
          (fun sig hsig => hs (past ++ [c]) sig hsig) h

/-- C3 (amended): (a) for every replay whose config has fractional (≤ 100%)
commission and slippage and trailing percentage ≤ 100, whose candles have
nonnegative prices, and whose signals carry nonnegative sizing/stop
metadata, cash stays nonnegative throughout (every intermediate state is
`runFrom` applied to a shorter suffix, so the invariant covers every
operation); (b) a BUY with `notional + commission > cash` leaves the state
bit-for-bit unchanged; (c) otherwise it deducts exactly
`notional + commission` and appends exactly one position for the signal's
symbol.  (Without the rate bounds the claim fails: see the
counterexample, whose config even passes `validate`.) -/
theorem cash_nonneg_invariant :
    (∀ (gen : List Candle → List Signal) (past rest : List Candle) (s : EngineState),
      WFConfig s.config → (∀ c ∈ rest, WFCandle c) →
      (∀ pref sig, sig ∈ gen pref → WFSignal sig) → CashInv s →
      0 ≤ (runFrom gen past rest s).cash) ∧
    (∀ (s : EngineState) (sig : Signal) (candle : Candle) (ts : ℤ),
      s.cash < s.open_position_value sig + s.open_commission sig →
      s.open_position sig candle ts = s) ∧
    (∀ (s : EngineState) (sig : Signal) (candle : Candle) (ts : ℤ),
      s.open_position_value sig + s.open_commission sig ≤ s.cash →
      (s.open_position sig candle ts).cash =
        s.cash - (s.open_position_value sig + s.open_commission sig) ∧
      (s.open_position sig candle ts).positions.map (fun p => p.symbol) =
        s.positions.map (fun p => p.symbol) ++ [sig.symbol]) := by
  refine ⟨?_, ?_, ?_⟩
  · intro gen past rest s hcfg hc hs h
    exact (runFrom_cash_inv gen past rest s hcfg hc hs h).1
  · intro s sig candle ts hlt
    unfold EngineState.open_position
    dsimp only
    rw [if_pos hlt]
  · intro s sig candle ts hle
    unfold EngineState.open_position
    dsimp only
    rw [if_neg (not_lt.mpr hle)]
    exact ⟨rfl, by simp⟩

/-- Witness for C3: a no-signal one-candle replay from the scenario-A
config keeps cash nonnegative. -/
theorem cash_nonneg_invariant_witness :
    0 ≤ (runFrom (fun _ => []) [] [Candle.mk 0 100 100 100]
      (BacktestEngine.init cfgA)).cash := by
  apply cash_nonneg_invariant.1
  · constructor
    · norm_num [BacktestEngine.init, cfgA]
    · refine ⟨by norm_num [BacktestEngine.init, cfgA], ?_, ?_, ?_, ?_⟩ <;>
        norm_num [BacktestEngine.init, cfgA]
  · intro c hc
    rcases List.mem_singleton.mp hc with rfl
    exact ⟨by norm_num, by norm_num, by norm_num⟩
  · intro pref sig hsig
    simp at hsig
  · exact ⟨by norm_num [BacktestEngine.init, cfgA], fun p hp => by
      simp [BacktestEngine.init, cfgA] at hp⟩

/-- The counterexample configuration for C3: a 200% commission rate, which
`validate` accepts (it only rejects negative commissions). -/
def cfgC : BacktestConfig := BacktestConfig.mk 0 100 10000 2 0 5 false 2

/-- Warm-up candles, a BUY candle at close 100 and a SELL candle at
close 800. -/
def dataC : List Candle :=
  List.replicate 50 warmCandle ++ [Candle.mk 50 100 100 100, Candle.mk 51 800 800 800]

/-- Counterexample for C3: a validated config with commission 2 drives cash
to −1000: the BUY passes the cash guard (1000 + 2000 ≤ 10000), but the SELL
credits `position_value − commission = 8000 − 16000 < 0`. -/
theorem cash_negative_commission_cex :
    cfgC.validate = [] ∧
    ((BacktestEngine.init cfgC).run_event_driven genA dataC 6).cash = -1000 ∧
    ((BacktestEngine.init cfgC).run_event_driven genA dataC 6).cash < 0 := by
  refine ⟨?_, ?_⟩
  · unfold BacktestConfig.validate cfgC
    norm_num
  have htake : dataC.take 50 = List.replicate 50 warmCandle := by
    unfold dataC
    exact List.take_left' (List.length_replicate 50 warmCandle)
  have hdrop : dataC.drop 50 =
      [Candle.mk 50 100 100 100, Candle.mk 51 800 800 800] := by
    unfold dataC
    exact List.drop_left' (List.length_replicate 50 warmCandle)
  have h1 : (SignalType.buy = SignalType.hold ∨ SignalType.buy = SignalType.no_signal) =
      False := eq_false (by decide)
  have h2 : (SignalType.sell = SignalType.hold ∨ SignalType.sell = SignalType.no_signal) =
      False := eq_false (by decide)
  have h3 : (SignalType.sell = SignalType.buy) = False := eq_false (by decide)
  unfold EngineState.run_event_driven
  norm_num [htake, hdrop]
  norm_num [h1, h2, h3, runFrom, genA, EngineState.step_candle,
    EngineState.check_exit_orders, EngineState.close_entries,
    EngineState.update_position_prices, updateOnePosition,
    BacktestPosition.update_price_tracking, EngineState.process_signal,
    Signal.is_actionable, EngineState.open_position, EngineState.open_position_value,
    EngineState.open_commission, EngineState.close_position,
    EngineState.close_position_at_price, BacktestPosition.calculate_pnl,
    BacktestPosition.calculate_pnl_percentage, BacktestPosition.exit_trigger,
    OptQ.truthy, EngineState.record_equity, BacktestEngine.init, cfgC,
    max_def, min_def]

/-! ## Claim C2: stop-loss priority in the exit-order check -/

/-- A trigger entry always carries the id of the position that emitted it. -/
theorem exit_trigger_fst (p : BacktestPosition) (high low : ℚ)
    (e : ℕ × TradeType × ℚ) (h : p.exit_trigger high low = some e) : e.1 = p.id := by
  unfold BacktestPosition.exit_trigger at h
  split at h
  · cases h; rfl
  · split at h
    · cases h; rfl
    · split at h
      · cases h; rfl
      · exact absurd h (by simp)

/-- Every first component of the collected `positions_to_close` list is the
id of some open position. -/
theorem trigger_list_fst_mem (ps : List BacktestPosition) (high low : ℚ) (x : ℕ)
    (hx : x ∈ (ps.filterMap (fun p => p.exit_trigger high low)).map (fun e => e.1)) :
    x ∈ ps.map (fun p => p.id) := by
  rcases List.mem_map.mp hx with ⟨e, he, rfl⟩
  rcases List.mem_filterMap.mp he with ⟨p, hp, htr⟩
  rw [exit_trigger_fst p high low e htr]
  exact List.mem_map.mpr ⟨p, hp, rfl⟩

/-- With distinct open-position ids, the collected `positions_to_close`
entries also have distinct ids (each position contributes at most one). -/
theorem trigger_list_fst_nodup (ps : List BacktestPosition) (high low : ℚ)
    (h : (ps.map (fun p => p.id)).Nodup) :
    ((ps.filterMap (fun p => p.exit_trigger high low)).map (fun e => e.1)).Nodup := by
  induction ps with
  | nil => simp
  | cons p ps ih =>
      rw [List.map_cons, List.nodup_cons] at h
      rw [List.filterMap_cons]
      cases htr : p.exit_trigger high low with
      | none => exact ih h.2
      | some e =>
          rw [List.map_cons, List.nodup_cons]
          refine ⟨?_, ih h.2⟩
          intro hmem
          rw [exit_trigger_fst p high low e htr] at hmem
          exact h.1 (trigger_list_fst_mem ps high low p.id hmem)

/-- Erasing by id removes the id entirely when ids are distinct. -/
theorem eraseP_id_not_mem (ps : List BacktestPosition) (pid : ℕ)
    (h : (ps.map (fun p => p.id)).Nodup) :
    pid ∉ (ps.eraseP (fun p => p.id == pid)).map (fun p => p.id) := by
  induction ps with
  | nil => simp
  | cons p ps ih =>
      rw [List.map_cons, List.nodup_cons] at h
      by_cases hp : p.id = pid
      · rw [List.eraseP_cons, show (p.id == pid) = true by simpa using hp]
        rw [cond_true, ← hp]
        exact h.1
      · rw [List.eraseP_cons, show (p.id == pid) = false by simpa using hp]
        rw [cond_false, List.map_cons]
        intro hmem
        rcases List.mem_cons.mp hmem with heq | hmem2
        · exact hp heq.symm
        · exact ih h.2 hmem2

/-- Erasing one position keeps the remaining ids distinct. -/
theorem eraseP_id_nodup (ps : List BacktestPosition) (q : BacktestPosition → Bool)
    (h : (ps.map (fun p => p.id)).Nodup) :
    ((ps.eraseP q).map (fun p => p.id)).Nodup :=
  ((List.eraseP_sublist ps).map (fun p => p.id)).nodup h

/-- A position id other than the erased one survives the erase. -/
theorem mem_eraseP_id_of_ne (ps : List BacktestPosition) (pid other : ℕ)
    (hne : pid ≠ other) (h : pid ∈ ps.map (fun p => p.id)) :
    pid ∈ (ps.eraseP (fun p => p.id == other)).map (fun p => p.id) := by
  rcases List.mem_map.mp h with ⟨p, hp, rfl⟩
  refine List.mem_map.mpr ⟨p, ?_, rfl⟩
  rw [List.mem_eraseP_of_neg (by simpa using hne)]
  exact hp

theorem close_at_price_positions (s : EngineState) (pos : BacktestPosition)
    (price : ℚ) (ts : ℤ) (tt : TradeType) :
    (s.close_position_at_price pos price ts tt).positions =
      s.positions.eraseP (fun p => p.id == pos.id) := rfl

theorem close_at_price_trades_filter_ne (s : EngineState) (pos : BacktestPosition)
    (price : ℚ) (ts : ℤ) (tt : TradeType) (pid : ℕ) (h : pos.id ≠ pid) :
    (s.close_position_at_price pos price ts tt).trades.filter
      (fun t => t.position_id == pid) =
      s.trades.filter (fun t => t.position_id == pid) := by
  unfold EngineState.close_position_at_price
  dsimp only
  rw [List.filter_append]
  simp [h]

theorem close_at_price_trades_filter_eq (s : EngineState) (pos : BacktestPosition)
    (price : ℚ) (ts : ℤ) (tt : TradeType) (pid : ℕ) (h : pos.id = pid) :
    ((s.close_position_at_price pos price ts tt).trades.filter
      (fun t => t.position_id == pid)).map (fun t => (t.exit_price, t.trade_type)) =
      ((s.trades.filter (fun t => t.position_id == pid)).map
        (fun t => (t.exit_price, t.trade_type))) ++ [(price, tt)] := by
  unfold EngineState.close_position_at_price
  dsimp only
  rw [List.filter_append, List.map_append]
  simp [h]

/-- Entries whose id never occurs in the worklist leave this id's trades and
absence from the position map untouched. -/
theorem close_entries_untouched (l : List (ℕ × TradeType × ℚ)) (s : EngineState)
    (ts : ℤ) (pid : ℕ) (hfst : pid ∉ l.map (fun e => e.1))
    (hpos : pid ∉ s.positions.map (fun p => p.id)) :
    (s.close_entries l ts).trades.filter (fun t => t.position_id == pid) =
      s.trades.filter (fun t => t.position_id == pid) ∧
    pid ∉ (s.close_entries l ts).positions.map (fun p => p.id) := by
  induction l generalizing s with
  | nil => exact ⟨rfl, hpos⟩
  | cons e rest ih =>
      rw [List.map_cons, List.mem_cons] at hfst
      push_neg at hfst
      unfold EngineState.close_entries
      cases hf : s.positions.find? (fun p => p.id == e.1) with
      | none => exact ih s hfst.2 hpos
      | some q =>
          have hq : q.id = e.1 := by simpa using List.find?_some hf
          have h1 : (s.close_position_at_price q e.2.2 ts e.2.1).trades.filter
              (fun t => t.position_id == pid) =
              s.trades.filter (fun t => t.position_id == pid) :=
            close_at_price_trades_filter_ne s q e.2.2 ts e.2.1 pid
              (by rw [hq]; exact fun hcontra => hfst.1 hcontra.symm)
          have h2 : pid ∉ (s.close_position_at_price q e.2.2 ts e.2.1).positions.map
              (fun p => p.id) := by
            rw [close_at_price_positions]
            intro hmem
            exact hpos (((List.eraseP_sublist s.positions).map (fun p => p.id)).subset hmem)
          obtain ⟨ih1, ih2⟩ := ih _ hfst.2 h2
          exact ⟨by rw [ih1, h1], ih2⟩

/-- The closing loop records exactly one trade for a worklist entry whose id
is unique, at that entry's price and trade type, and removes the position. -/
theorem close_entries_key (l : List (ℕ × TradeType × ℚ)) (s : EngineState) (ts : ℤ)
    (pid : ℕ) (tt : TradeType) (pr : ℚ)
    (hfstnodup : (l.map (fun e => e.1)).Nodup)
    (hsnodup : (s.positions.map (fun p => p.id)).Nodup)
    (hlmem : (pid, tt, pr) ∈ l) (hpmem : pid ∈ s.positions.map (fun p => p.id)) :
    ((s.close_entries l ts).trades.filter (fun t => t.position_id == pid)).map
      (fun t => (t.exit_price, t.trade_type)) =
      ((s.trades.filter (fun t => t.position_id == pid)).map
        (fun t => (t.exit_price, t.trade_type))) ++ [(pr, tt)] ∧
    pid ∉ (s.close_entries l ts).positions.map (fun p => p.id) := by
  induction l generalizing s with
  | nil => exact absurd hlmem (List.not_mem_nil _)
  | cons e rest ih =>
      rw [List.map_cons, List.nodup_cons] at hfstnodup
      by_cases hcase : e.1 = pid
      · have he : (pid, tt, pr) = e := by
          rcases List.mem_cons.mp hlmem with heq | hmem
          · exact heq
          · exfalso
            apply hfstnodup.1
            rw [hcase]
            exact List.mem_map.mpr ⟨(pid, tt, pr), hmem, rfl⟩
        cases he
        unfold EngineState.close_entries
        dsimp only
        cases hf : s.positions.find? (fun p => p.id == pid) with
        | none =>
            exfalso
            rcases List.mem_map.mp hpmem with ⟨r, hr, hrid⟩
            have := List.find?_eq_none.mp hf r hr
            simp [hrid] at this
        | some q =>
            have hq : q.id = pid := by simpa using List.find?_some hf
            have h1 := close_at_price_trades_filter_eq s q pr ts tt pid hq
            have h2 : pid ∉ (s.close_position_at_price q pr ts tt).positions.map
                (fun p => p.id) := by
              rw [close_at_price_positions, hq]
              exact eraseP_id_not_mem s.positions pid hsnodup
            have hrestfst : pid ∉ rest.map (fun e => e.1) := by
              rw [← hcase]
              exact hfstnodup.1
            obtain ⟨u1, u2⟩ := close_entries_untouched rest
              (s.close_position_at_price q pr ts tt) ts pid hrestfst h2
            refine ⟨?_, u2⟩
            rw [u1]
            exact h1
      · have hmem : (pid, tt, pr) ∈ rest := by
          rcases List.mem_cons.mp hlmem with heq | hm
          · exfalso
            apply hcase
            rw [← heq]
          · exact hm
        unfold EngineState.close_entries
        dsimp only
        cases hf : s.positions.find? (fun p => p.id == e.1) with
        | none => exact ih s hfstnodup.2 hsnodup hmem hpmem
        | some q =>
            have hq : q.id = e.1 := by simpa using List.find?_some hf
            have hne : q.id ≠ pid := by
              rw [hq]
              exact hcase
            have htr : (s.close_position_at_price q e.2.2 ts e.2.1).trades.filter
                (fun t => t.position_id == pid) =
                s.trades.filter (fun t => t.position_id == pid) :=
              close_at_price_trades_filter_ne s q e.2.2 ts e.2.1 pid hne
            have hnodup2 : ((s.close_position_at_price q e.2.2 ts e.2.1).positions.map
                (fun p => p.id)).Nodup := by
              rw [close_at_price_positions]
              exact eraseP_id_nodup s.positions _ hsnodup
            have hmem2 : pid ∈ (s.close_position_at_price q e.2.2 ts e.2.1).positions.map
                (fun p => p.id) := by
              rw [close_at_price_positions]
              exact mem_eraseP_id_of_ne s.positions pid q.id (fun h => hne h.symm) hpmem
            obtain ⟨k1, k2⟩ := ih _ hfstnodup.2 hnodup2 hmem hmem2
            refine ⟨?_, k2⟩
            rw [k1, htr]

/-- C2 (amended): for every open position whose stop_loss is set to a
NONZERO value and whose take_profit is set, and every candle with
`low ≤ stop_loss` and `high ≥ take_profit`, `_check_exit_orders` closes the
position exactly once, at exactly the stop-loss price, recording the trade
as STOP_LOSS and never TAKE_PROFIT (stop-loss is tested first in the
`elif` chain).  (With `stop_loss = 0.0` Python truthiness skips the
stop-loss branch: see the counterexample.) -/
theorem stop_loss_priority_exact (s : EngineState) (pos : BacktestPosition)
    (high low : ℚ) (ts : ℤ) (sl tp : ℚ)
    (hnodup : (s.positions.map (fun p => p.id)).Nodup)
    (hmem : pos ∈ s.positions)
    (hsl : pos.stop_loss = some sl) (hsl0 : sl ≠ 0)
    (_htp : pos.take_profit = some tp)
    (hlow : low ≤ sl) (_hhigh : tp ≤ high) :
    ((s.check_exit_orders high low ts).trades.filter
      (fun t => t.position_id == pos.id)).map (fun t => (t.exit_price, t.trade_type)) =
      ((s.trades.filter (fun t => t.position_id == pos.id)).map
        (fun t => (t.exit_price, t.trade_type))) ++ [(sl, TradeType.stop_loss)] ∧
    pos.id ∉ (s.check_exit_orders high low ts).positions.map (fun p => p.id) := by
  have htrig : pos.exit_trigger high low = some (pos.id, TradeType.stop_loss, sl) := by
    unfold BacktestPosition.exit_trigger
    rw [hsl]
    simp [OptQ.truthy, hsl0, hlow]
  unfold EngineState.check_exit_orders
  apply close_entries_key _ s ts pos.id TradeType.stop_loss sl
  · exact trigger_list_fst_nodup s.positions high low hnodup
  · exact hnodup
  · exact List.mem_filterMap.mpr ⟨pos, hmem, htrig⟩
  · exact List.mem_map.mpr ⟨pos, hmem, rfl⟩

/-- Witness for C2: a LONG position with stop 90 and target 120 on a candle
spanning 80..130 closes once at 90 as STOP_LOSS. -/
theorem stop_loss_priority_exact_witness :
    ((((EngineState.mk cfgFive 10000 10000
        [BacktestPosition.mk 1 "BTC" PositionSide.long 100 10 0 (some 90) (some 120)
          none 100 100] [] [] 10000 0 1).check_exit_orders 130 80 7).trades.filter
      (fun t => t.position_id ==
        (BacktestPosition.mk 1 "BTC" PositionSide.long 100 10 0 (some 90) (some 120)
          none 100 100).id)).map (fun t => (t.exit_price, t.trade_type))) =
      (([] : List BacktestTrade).filter (fun t => t.position_id ==
        (BacktestPosition.mk 1 "BTC" PositionSide.long 100 10 0 (some 90) (some 120)
          none 100 100).id)).map (fun t => (t.exit_price, t.trade_type)) ++
        [((90 : ℚ), TradeType.stop_loss)] ∧
    (BacktestPosition.mk 1 "BTC" PositionSide.long 100 10 0 (some 90) (some 120)
        none 100 100).id ∉
      ((EngineState.mk cfgFive 10000 10000
        [BacktestPosition.mk 1 "BTC" PositionSide.long 100 10 0 (some 90) (some 120)
          none 100 100] [] [] 10000 0 1).check_exit_orders 130 80 7).positions.map
        (fun p => p.id) := by
  apply stop_loss_priority_exact _ _ 130 80 7 90 120
  · simp
  · simp
  · rfl
  · norm_num
  · rfl
  · norm_num
  · norm_num

/-- Counterexample for C2: both exit levels are set (`stop_loss = 0.0`,
`take_profit = 50`) and the candle touches both (`low = −1 ≤ 0`,
`high = 60 ≥ 50`), yet the close is recorded as TAKE_PROFIT at 50 — Python
truthiness treats the 0.0 stop loss as unset, so the claim's "never
TAKE_PROFIT" fails as stated. -/
theorem zero_stop_loss_take_profit_cex :
    (BacktestPosition.mk 1 "BTC" PositionSide.long 100 10 0 (some 0) (some 50)
      none 100 100).stop_loss = some 0 ∧
    (BacktestPosition.mk 1 "BTC" PositionSide.long 100 10 0 (some 0) (some 50)
      none 100 100).take_profit = some 50 ∧
    ((-1 : ℚ) ≤ 0) ∧ ((50 : ℚ) ≤ 60) ∧
    ((EngineState.mk cfgFive 10000 10000
        [BacktestPosition.mk 1 "BTC" PositionSide.long 100 10 0 (some 0) (some 50)
          none 100 100] [] [] 10000 0 1).check_exit_orders 60 (-1) 5).trades.map
      (fun t => t.trade_type) = [TradeType.take_profit] ∧
    ((EngineState.mk cfgFive 10000 10000
        [BacktestPosition.mk 1 "BTC" PositionSide.long 100 10 0 (some 0) (some 50)
          none 100 100] [] [] 10000 0 1).check_exit_orders 60 (-1) 5).trades.map
      (fun t => t.exit_price) = [50] := by
  refine ⟨rfl, rfl, by norm_num, by norm_num, ?_⟩
  norm_num [EngineState.check_exit_orders, EngineState.close_entries,
    BacktestPosition.exit_trigger, OptQ.truthy,
    EngineState.close_position_at_price, BacktestPosition.calculate_pnl,
    BacktestPosition.calculate_pnl_percentage, cfgFive]
